import Mathlib

/-!
WikiScape article HTML sectioning pipeline — verification.

Shallow embedding of the HTML sectioning pipeline of the WikiScape
repository (`parseHtml`, `extractInfoboxImage`, `extractInfobox`,
`extractIntro`, `splitIntoSections`, and the composition used by the article
screen), together with the behaviour of its dependencies (`htmlparser2`,
`css-select`, `dom-serializer`, `domutils`) restricted to what the pipeline
exercises.

Modelling notes.
* Strings are Lean `String`s. JavaScript `NaN` (produced by `parseInt` on a
  non-numeric string) is modelled by `Option Int`, `none` standing for `NaN`.
* The embedded parser is total, as `htmlparser2` is: it never throws on any
  string input. It models tag and attribute tokenisation, tag-name and
  attribute-name lowercasing, void elements, first-attribute-wins duplicate
  handling, recovery from mismatched or unclosed tags, and adjacent-text
  merging. HTML entity decoding, the raw-text content of `script`/`style`
  elements, and `htmlparser2`'s open-implies-close sibling rules are not
  modelled: none of the properties verified below depend on them, and the
  concrete inputs appearing below contain none of these constructs.
* JavaScript try/catch is modelled with `Except`: the one reachable `throw`
  site in the pipeline is `parseHtml`'s invalid-input check, and each
  extraction function's catch clause is the `Except.error` branch of its
  wrapper.
* DOM node identity (JavaScript reference equality, used by the source's
  `includes` checks) is modelled by node paths: lists of child indices from
  the document root, so that two structurally equal elements at different
  positions stay distinguishable exactly as object references do.
-/

namespace WikiScape

/-- The whitespace set of JavaScript's `String.prototype.trim` and `parseInt`
(ASCII whitespace plus no-break space, BOM and the Unicode line separators,
the forms that occur in practice). -/
def jsIsSpace (c : Char) : Bool :=
  c = ' ' || c = '\t' || c = '\n' || c = '\r' || c = '\x0b' || c = '\x0c' ||
  c = '\u00a0' || c = '\ufeff' || c = '\u2028' || c = '\u2029'

/-- JavaScript `String.prototype.trim`. -/
def jsTrim (s : String) : String :=
  ⟨((s.data.dropWhile jsIsSpace).reverse.dropWhile jsIsSpace).reverse⟩

/-- Decimal value of a digit list (most significant first). -/
def digitsVal (l : List Char) : Nat :=
  l.foldl (fun acc c => acc * 10 + (c.toNat - '0'.toNat)) 0

/-- JavaScript `parseInt(s, 10)`: skip leading whitespace, optional sign,
longest digit run; `none` models `NaN` (no digit found). -/
def jsParseInt (s : String) : Option Int :=
  let l := s.data.dropWhile jsIsSpace
  let signed : Bool × List Char :=
    match l with
    | '-' :: t => (true, t)
    | '+' :: t => (false, t)
    | _ => (false, l)
  let digs := signed.2.takeWhile Char.isDigit
  if digs.isEmpty then none
  else some (if signed.1 then -(digitsVal digs : Int) else (digitsVal digs : Int))

/-- JavaScript `a || b` for an optional string attribute value: an absent
attribute (`undefined`) and the empty string are both falsy. -/
def jsOrS (a : Option String) (b : String) : String :=
  match a with
  | some v => if v = "" then b else v
  | none => b

/-- `pre` is a prefix of `l` (Boolean, by character equality): the model of
JavaScript `String.prototype.startsWith` on the underlying character lists. -/
def listPref : List Char → List Char → Bool
  | [], _ => true
  | _ :: _, [] => false
  | a :: as1, b :: bs1 => a == b && listPref as1 bs1

/-- JavaScript `s.startsWith(pre)`. -/
def jsStartsWith (s pre : String) : Bool :=
  listPref pre.data s.data

/-- `n` occurs as a contiguous substring of `h` (Boolean): the model of
JavaScript `String.prototype.includes`. -/
def containsSub : List Char → List Char → Bool
  | _, [] => false
  | n, h@(_ :: t) => listPref n h || containsSub n t

/-- JavaScript `h.includes(n)` (with the convention that the empty needle is
found in the empty haystack, which never arises below). -/
def jsIncludes (h n : String) : Bool :=
  listPref n.data h.data || containsSub n.data h.data

/-! ## The DOM (domhandler's tree, as the pipeline observes it) -/

/-- A parse-tree node: `domhandler`'s Element / Text / Comment / Directive
(processing instructions and doctype), with attributes as an ordered list of
lowercased-name/value pairs. -/
inductive Node where
  | element (name : String) (attribs : List (String × String)) (children : List Node)
  | text (data : String)
  | comment (data : String)
  | directive (data : String)

/-- The document root (`htmlparser2.parseDocument`'s Document node). -/
structure Document where
  children : List Node

/-- Attribute lookup (`attribs[name]`): first binding wins, matching
`htmlparser2`'s duplicate-attribute handling. -/
def lookupA (ats : List (String × String)) (k : String) : Option String :=
  match ats with
  | [] => none
  | (k', v) :: t => if k' = k then some v else lookupA t k

/-- Insert an attribute unless one of that name is already present
(`htmlparser2` keeps the first occurrence of a duplicated attribute). -/
def insertA (ats : List (String × String)) (k v : String) : List (String × String) :=
  match lookupA ats k with
  | some _ => ats
  | none => ats ++ [(k, v)]

/-! ## Tokenizer (htmlparser2, default HTML mode) -/

/-- A lexed token. -/
inductive Tok where
  | topen (name : String) (attribs : List (String × String))
  | tclose (name : String)
  | ttext (data : String)
  | tcomment (data : String)
  | tdirective (data : String)

/-- Characters that end a tag or attribute name. -/
def isNameEnd (c : Char) : Bool :=
  jsIsSpace c || c = '/' || c = '>' || c = '='

/-- Lowercase a tag or attribute name (`htmlparser2`'s `lowerCaseTags` /
`lowerCaseAttributeNames`, both on by default in HTML mode). -/
def lowerL (l : List Char) : List Char :=
  l.map Char.toLower

/-- Lex the attribute list of an open tag, up to and including the closing
`>`; returns the attributes and the rest of the input. Fuelled for
structural termination; the fuel passed in is always sufficient because each
step consumes at least one character. -/
def lexAttrs : Nat → List Char → List (String × String) → List (String × String) × List Char
  | 0, l, acc => (acc, l)
  | _ + 1, [], acc => (acc, [])
  | fuel + 1, c :: t, acc =>
    if jsIsSpace c then lexAttrs fuel t acc
    else if c = '>' then (acc, t)
    else if c = '/' then lexAttrs fuel t acc
    else
      let nm := (c :: t).takeWhile (fun d => !isNameEnd d)
      let r1 := (c :: t).dropWhile (fun d => !isNameEnd d)
      let r2 := r1.dropWhile jsIsSpace
      match r2 with
      | '=' :: r3 =>
        let r4 := r3.dropWhile jsIsSpace
        match r4 with
        | '"' :: r5 =>
          let v := r5.takeWhile (· ≠ '"')
          let r6 := (r5.dropWhile (· ≠ '"')).drop 1
          lexAttrs fuel r6 (insertA acc ⟨lowerL nm⟩ ⟨v⟩)
        | '\'' :: r5 =>
          let v := r5.takeWhile (· ≠ '\'')
          let r6 := (r5.dropWhile (· ≠ '\'')).drop 1
          lexAttrs fuel r6 (insertA acc ⟨lowerL nm⟩ ⟨v⟩)
        | _ =>
          let v := r4.takeWhile (fun d => !jsIsSpace d && d ≠ '>')
          let r5 := r4.dropWhile (fun d => !jsIsSpace d && d ≠ '>')
          lexAttrs fuel r5 (insertA acc ⟨lowerL nm⟩ ⟨v⟩)
      | _ => lexAttrs fuel r2 (insertA acc ⟨lowerL nm⟩ "")

/-- Split a character list at the first occurrence of `-->`; used for
comments (an unterminated comment runs to the end of input, as in
`htmlparser2`). -/
def splitCommentEnd : List Char → List Char × List Char
  | [] => ([], [])
  | '-' :: '-' :: '>' :: t => ([], t)
  | c :: t =>
    let r := splitCommentEnd t
    (c :: r.1, r.2)

/-- Tokenize an HTML input (model of `htmlparser2`'s tokenizer in default
HTML mode, without entity decoding or raw-text elements). Fuelled; each step
consumes at least one character so `length + 1` fuel always suffices. -/
def lexTokens : Nat → List Char → List Tok
  | 0, _ => []
  | _ + 1, [] => []
  | fuel + 1, '<' :: rest =>
    match rest with
    | '/' :: r2 =>
      let nm := r2.takeWhile (fun d => !isNameEnd d)
      let r3 := (r2.dropWhile (· ≠ '>')).drop 1
      Tok.tclose ⟨lowerL nm⟩ :: lexTokens fuel r3
    | '!' :: '-' :: '-' :: r2 =>
      let p := splitCommentEnd r2
      Tok.tcomment ⟨p.1⟩ :: lexTokens fuel p.2
    | '!' :: r2 =>
      let d := r2.takeWhile (· ≠ '>')
      let r3 := (r2.dropWhile (· ≠ '>')).drop 1
      Tok.tdirective ⟨'!' :: d⟩ :: lexTokens fuel r3
    | '?' :: r2 =>
      let d := r2.takeWhile (· ≠ '>')
      let r3 := (r2.dropWhile (· ≠ '>')).drop 1
      Tok.tdirective ⟨'?' :: d⟩ :: lexTokens fuel r3
    | c :: r2 =>
      if c.isAlpha then
        let nm := (c :: r2).takeWhile (fun d => !isNameEnd d)
        let r3 := (c :: r2).dropWhile (fun d => !isNameEnd d)
        let p := lexAttrs r3.length r3 []
        Tok.topen ⟨lowerL nm⟩ p.1 :: lexTokens fuel p.2
      else
        Tok.ttext "<" :: lexTokens fuel rest
    | [] => [Tok.ttext "<"]
  | fuel + 1, l =>
    let txt := l.takeWhile (· ≠ '<')
    Tok.ttext ⟨txt⟩ :: lexTokens fuel (l.dropWhile (· ≠ '<'))

/-! ## Tree construction (domhandler) -/

/-- The HTML void elements (`htmlparser2`'s set): they never take children
and are closed as soon as they are opened. -/
def voidTags : List String :=
  ["area", "base", "basefont", "br", "col", "command", "embed", "frame",
   "hr", "img", "input", "isindex", "keygen", "link", "meta", "param",
   "source", "track", "wbr"]

/-- Builder state: the stack of open elements (innermost first, children
accumulated in reverse) and the reversed top-level node list. -/
structure BState where
  stack : List (String × List (String × String) × List Node)
  top : List Node

/-- Append a finished node: `domhandler` merges a text node into an adjacent
preceding text sibling. -/
def addNode (st : BState) (n : Node) : BState :=
  match st.stack, n with
  | [], Node.text s =>
    match st.top with
    | Node.text s0 :: t => { st with top := Node.text (s0 ++ s) :: t }
    | _ => { st with top := n :: st.top }
  | [], _ => { st with top := n :: st.top }
  | (nm, ats, cs) :: r, Node.text s =>
    match cs with
    | Node.text s0 :: t => { st with stack := (nm, ats, Node.text (s0 ++ s) :: t) :: r }
    | _ => { st with stack := (nm, ats, n :: cs) :: r }
  | (nm, ats, cs) :: r, _ => { st with stack := (nm, ats, n :: cs) :: r }

/-- Close the innermost open element, attaching it to its parent. -/
def popFrame (st : BState) : BState :=
  match st.stack with
  | [] => st
  | (nm, ats, cs) :: r =>
    addNode { st with stack := r } (Node.element nm ats cs.reverse)

theorem addNode_stack_length (st : BState) (n : Node) :
    (addNode st n).stack.length = st.stack.length := by
  unfold addNode
  rcases st with ⟨stack, top⟩
  cases stack <;> cases n <;> simp <;> split <;> simp

theorem popFrame_stack_length (st : BState) (f r) (h : st.stack = f :: r) :
    (popFrame st).stack.length = r.length := by
  unfold popFrame
  rw [h]
  exact addNode_stack_length _ _

/-- Pop at most `fuel` frames, stopping after the first frame named `nm`
(the fuel passed in is always the stack depth, which bounds every pop). -/
def popUntil : Nat → BState → String → BState
  | 0, st, _ => st
  | fuel + 1, st, nm =>
    match st.stack with
    | [] => st
    | (nm', _, _) :: _ =>
      if nm' = nm then popFrame st else popUntil fuel (popFrame st) nm

/-- Handle a close tag: if an element of that name is open, close elements
up to and including it; otherwise ignore the tag (recovery behaviour). -/
def closeFrames (st : BState) (nm : String) : BState :=
  if (st.stack.map (fun f => f.1)).contains nm then
    popUntil st.stack.length st nm
  else st

/-- Feed one token to the builder. -/
def buildStep (st : BState) : Tok → BState
  | Tok.topen nm ats =>
    if voidTags.contains nm then addNode st (Node.element nm ats [])
    else { st with stack := (nm, ats, []) :: st.stack }
  | Tok.tclose nm => closeFrames st nm
  | Tok.ttext s => addNode st (Node.text s)
  | Tok.tcomment s => addNode st (Node.comment s)
  | Tok.tdirective s => addNode st (Node.directive s)

/-- Close up to `fuel` still-open elements. -/
def finishN : Nat → BState → BState
  | 0, st => st
  | fuel + 1, st =>
    match st.stack with
    | [] => st
    | _ :: _ => finishN fuel (popFrame st)

/-- Close every still-open element (end of input). -/
def finishAll (st : BState) : BState :=
  finishN st.stack.length st

/-- `htmlparser2.parseDocument`: total on every string input. -/
def parseDocument (s : String) : Document :=
  ⟨(finishAll ((lexTokens (s.data.length + 1) s.data).foldl buildStep ⟨[], []⟩)).top.reverse⟩

/-! ## Serialization (dom-serializer, default HTML mode) -/

/-- Escape a text node (`&`, `<`, `>`). -/
def escText (s : String) : String :=
  ⟨s.data.foldr (fun c acc =>
    if c = '&' then "&amp;".data ++ acc
    else if c = '<' then "&lt;".data ++ acc
    else if c = '>' then "&gt;".data ++ acc
    else c :: acc) []⟩

/-- Escape an attribute value (`&`, `"`). -/
def escAttr (s : String) : String :=
  ⟨s.data.foldr (fun c acc =>
    if c = '&' then "&amp;".data ++ acc
    else if c = '"' then "&quot;".data ++ acc
    else c :: acc) []⟩

/-- Serialize an attribute list. -/
def renderAttrs (ats : List (String × String)) : String :=
  ats.foldr (fun kv acc => " " ++ kv.1 ++ "=\"" ++ escAttr kv.2 ++ "\"" ++ acc) ""

/-- The serialized open tag of an element. -/
def renderOpenTag (nm : String) (ats : List (String × String)) : String :=
  "<" ++ nm ++ (renderAttrs ats ++ ">")

mutual

/-- `dom-serializer`'s `render` on a single node (void elements take no
closing tag and their children, never produced by the parser, are not
rendered). -/
def render1 : Node → String
  | Node.text s => escText s
  | Node.comment s => "<!--" ++ s ++ "-->"
  | Node.directive s => "<" ++ s ++ ">"
  | Node.element nm ats cs =>
    if voidTags.contains nm then renderOpenTag nm ats
    else renderOpenTag nm ats ++ (renderNodes cs ++ ("</" ++ (nm ++ ">")))

/-- `dom-serializer`'s `render` on a node sequence (a Document renders as the
concatenation of its children). -/
def renderNodes : List Node → String
  | [] => ""
  | n :: rest => render1 n ++ renderNodes rest

end

mutual

/-- `domutils.textContent` on one node: text data, recursing through
elements, skipping comments and directives. -/
def textContent1 : Node → String
  | Node.text s => s
  | Node.comment _ => ""
  | Node.directive _ => ""
  | Node.element _ _ cs => textContentL cs

/-- `domutils.textContent` over a node sequence. -/
def textContentL : List Node → String
  | [] => ""
  | n :: rest => textContent1 n ++ textContentL rest

end

/-! ## Selection (css-select over the tree, with node identity as paths) -/

mutual

/-- All nodes of a subtree in document (pre-)order, each with its path
(child-index list) from the subtree root; the root itself has path `[]`. -/
def subtreePathsN : Node → List (List Nat × Node)
  | Node.element nm ats cs => ([], Node.element nm ats cs) :: subtreePathsF 0 cs
  | Node.text s => [([], Node.text s)]
  | Node.comment s => [([], Node.comment s)]
  | Node.directive s => [([], Node.directive s)]

/-- All nodes of a forest in document order with paths, the first root at
child index `i`. -/
def subtreePathsF : Nat → List Node → List (List Nat × Node)
  | _, [] => []
  | i, n :: rest =>
    (subtreePathsN n).map (fun pm => (i :: pm.1, pm.2)) ++ subtreePathsF (i + 1) rest

end

/-- Element tag-name test. -/
def isTagB (t : String) (n : Node) : Bool :=
  match n with
  | Node.element nm _ _ => nm == t
  | _ => false

/-- Split a character list into the maximal runs separated by whitespace. -/
def splitWsAux (cur : List Char) : List Char → List String
  | [] => [⟨cur.reverse⟩]
  | c :: t =>
    if jsIsSpace c then ⟨cur.reverse⟩ :: splitWsAux [] t
    else splitWsAux (c :: cur) t

/-- The whitespace-separated words of a string. -/
def splitWs (s : String) : List String :=
  splitWsAux [] s.data

/-- css-select class test: the `class` attribute, split on whitespace,
contains the word. -/
def hasClassB (cls : String) (n : Node) : Bool :=
  match n with
  | Node.element _ ats _ =>
    match lookupA ats "class" with
    | some v => (splitWs v).contains cls
    | none => false
  | _ => false

/-- `selectAll(tag, roots)` with paths: document-order matches in the forest
(roots included), as css-select's tag selector returns them. -/
def findAllTag (t : String) (ns : List Node) : List (List Nat × Node) :=
  (subtreePathsF 0 ns).filter (fun pm => isTagB t pm.2)

/-- `selectOne(tag, roots)` with the matched node's path. -/
def findFirstTag (t : String) (ns : List Node) : Option (List Nat × Node) :=
  (findAllTag t ns).head?

/-- `selectOne('.cls', roots)` with the matched node's path. -/
def findFirstClass (cls : String) (ns : List Node) : Option (List Nat × Node) :=
  ((subtreePathsF 0 ns).filter (fun pm => hasClassB cls pm.2)).head?

/-- The node of a forest at a path (`none` for the empty path: that is the
Document itself, which is not a Node). -/
def getAtForest : List Node → List Nat → Option Node
  | _, [] => none
  | ns, [i] => ns.get? i
  | ns, i :: j :: rest =>
    match ns.get? i with
    | some (Node.element _ _ cs) => getAtForest cs (j :: rest)
    | _ => none

/-- Remove the node at a path (`domutils.removeElement` on the node that
path designates); out-of-range paths leave the forest unchanged. -/
def removeAt (ns : List Node) : List Nat → List Node
  | [] => ns
  | [i] => ns.eraseIdx i
  | i :: j :: rest =>
    match ns.get? i with
    | some (Node.element nm ats cs) => ns.set i (Node.element nm ats (removeAt cs (j :: rest)))
    | _ => ns

/-- The chain of ancestor-or-self paths of a node, deepest first, ending at
its top-level ancestor: the nonempty prefixes of the path, longest first.
(The Document itself is never included, matching the
`while (current && current.parent)` walk that stops at the parentless
Document.) -/
def ancestorChain : List Nat → List (List Nat)
  | [] => []
  | i :: rest => (ancestorChain rest).map (fun q => i :: q) ++ [[i]]

/-! ## The pipeline (articleParsing.ts) -/

/-- `parseHtml`: throws `Invalid HTML input` exactly when the input is empty
(the only falsy string; the non-string cases of `typeof html !== 'string'`
cannot arise in a typed embedding); otherwise returns the parsed document —
`parseDocument` itself never throws. -/
def parseHtml (html : String) : Except String Document :=
  if html = "" then Except.error "Invalid HTML input"
  else Except.ok (parseDocument html)

/-- Modelled from the spec: the implementation of `extractAltText` (module
`imageAltText`, imported by the sectioning code) is not among the sources
under `src/`; the spec describes it as a fallback chain "explicit alt
attribute → caption-like attributes → filename derived from `src`". -/
def extractAltText (ats : List (String × String)) (src : String) : String :=
  match lookupA ats "alt" with
  | some v =>
    if v = "" then
      match lookupA ats "title" with
      | some t => if t = "" then ⟨(src.data.reverse.takeWhile (· ≠ '/')).reverse⟩ else t
      | none => ⟨(src.data.reverse.takeWhile (· ≠ '/')).reverse⟩
    else v
  | none =>
    match lookupA ats "title" with
    | some t => if t = "" then ⟨(src.data.reverse.takeWhile (· ≠ '/')).reverse⟩ else t
    | none => ⟨(src.data.reverse.takeWhile (· ≠ '/')).reverse⟩

/-- The infobox image value (`width`/`height` as `Option Int`: `none` is
JavaScript `NaN`). -/
structure InfoboxImage where
  src : String
  alt : String
  width : Option Int
  height : Option Int
deriving DecidableEq, Repr

/-- Result record of `extractInfobox`. -/
structure InfoboxResult where
  infoboxHtml : String
  infoboxImage : Option InfoboxImage
  remaining : String
deriving DecidableEq, Repr

/-- Result record of `extractIntro`. -/
structure IntroResult where
  introHtml : String
  remaining : String
deriving DecidableEq, Repr

/-- One article section (`{id, heading, html}`). -/
structure ArticleSection where
  id : String
  heading : String
  html : String
deriving DecidableEq, Repr

/-- The attributes of the first `img` element of a parsed fragment, when
the parse succeeds and an `img` exists (the source's
`selectOne('img', dom.children)` followed by the `attribs` read). -/
def firstImgAttrs (html : String) : Option (List (String × String)) :=
  match parseHtml html with
  | Except.error _ => none
  | Except.ok dom =>
    match findFirstTag "img" dom.children with
    | some (_, Node.element _ ats _) => some ats
    | _ => none

/-- The raw `src` value the source reads before normalization:
`attrs.src || attrs['data-src'] || ''`. -/
def rawImgSrc (html : String) : String :=
  match firstImgAttrs html with
  | some ats => jsOrS (lookupA ats "src") (jsOrS (lookupA ats "data-src") "")
  | none => ""

/-- The `width` attribute of the first `img`, as the source reads it. -/
def widthAttrOf (html : String) : Option String :=
  (firstImgAttrs html).bind (fun ats => lookupA ats "width")

/-- The `height` attribute of the first `img`, as the source reads it. -/
def heightAttrOf (html : String) : Option String :=
  (firstImgAttrs html).bind (fun ats => lookupA ats "height")

/-- The two sequential normalization steps of `extractInfoboxImage`:
protocol-relative `//` becomes `https:`-prefixed, then a value that (still)
starts with a single `/` is resolved against `https://en.wikipedia.org`. -/
def normalizeSrc (raw : String) : String :=
  let s1 := if jsStartsWith raw "//" then "https:" ++ raw else raw
  if jsStartsWith s1 "/" && !jsStartsWith s1 "//" then "https://en.wikipedia.org" ++ s1
  else s1

/-- `extractInfoboxImage`: first `img` of the fragment, normalized `src`,
alt-text chain, `parseInt` of `width`/`height` with the `'400'`/`'300'`
fallback strings substituted for an absent or empty attribute. -/
def extractInfoboxImage (infoboxHtml : String) : Option InfoboxImage :=
  match firstImgAttrs infoboxHtml with
  | none => none
  | some ats =>
    let src := normalizeSrc (jsOrS (lookupA ats "src") (jsOrS (lookupA ats "data-src") ""))
    some
      { src := src
        alt := extractAltText ats src
        width := jsParseInt (jsOrS (lookupA ats "width") "400")
        height := jsParseInt (jsOrS (lookupA ats "height") "300") }

/-- The path (within the whole document forest) of the node
`extractInfobox` removes for an extracted image: walk upward from the first
`img` inside the infobox looking for a `tr`, or a `td` directly inside a
`tr` (in which case that `tr` is removed); if the walk finds neither, the
`img` itself is removed. -/
def climbRemovePath (doc : List Node) (imgPath : List Nat) : List Nat :=
  let hit := (ancestorChain imgPath).find? (fun c =>
    match getAtForest doc c with
    | some (Node.element "tr" _ _) => true
    | some (Node.element "td" _ _) =>
      (match getAtForest doc c.dropLast with
       | some (Node.element "tr" _ _) => true
       | _ => false)
    | _ => false)
  match hit with
  | some c =>
    match getAtForest doc c with
    | some (Node.element "tr" _ _) => c
    | _ => c.dropLast
  | none => imgPath

/-- `extractInfobox`. -/
def extractInfobox (html : String) : InfoboxResult :=
  match parseHtml html with
  | Except.error _ => { infoboxHtml := "", infoboxImage := none, remaining := html }
  | Except.ok dom =>
    match findFirstClass "infobox" dom.children with
    | none => { infoboxHtml := "", infoboxImage := none, remaining := html }
    | some (q, ib) =>
      let ibHtml := render1 ib
      match extractInfoboxImage ibHtml with
      | none =>
        { infoboxHtml := ibHtml, infoboxImage := none
          remaining := renderNodes (removeAt dom.children q) }
      | some img =>
        match findFirstTag "img" [ib] with
        | none =>
          { infoboxHtml := ibHtml, infoboxImage := some img
            remaining := renderNodes (removeAt dom.children q) }
        | some (rp, _) =>
          let imgAbs := q ++ rp.tail
          let remPath := climbRemovePath dom.children imgAbs
          let dom2 := removeAt dom.children remPath
          let ib2 :=
            if q.isPrefixOf remPath && remPath ≠ q then
              match getAtForest dom2 q with
              | some nd => nd
              | none => ib
            else ib
          let dom3 := if remPath.isPrefixOf q then dom2 else removeAt dom2 q
          { infoboxHtml := render1 ib2, infoboxImage := some img
            remaining := renderNodes dom3 }

/-- `getChildren(selectOne('body', dom) || dom)`: the children of the first
`body` element anywhere in the document, or the document's own children. -/
def bodyChildrenOf (dom : Document) : List Node :=
  match findFirstTag "body" dom.children with
  | some (_, Node.element _ _ cs) => cs
  | _ => dom.children

/-- The try-block of `extractIntro`, given a successfully parsed document. -/
def extractIntroCore (html : String) (dom : Document) : IntroResult :=
  let bodyChildren := bodyChildrenOf dom
  let sections := bodyChildren.filter (isTagB "section")
  if sections.isEmpty then
    match (findAllTag "h2" bodyChildren).head? with
    | none => { introHtml := html, remaining := "" }
    | some (p, _) =>
      let i := p.headD 0
      { introHtml := renderNodes (bodyChildren.take i)
        remaining := renderNodes (bodyChildren.drop i) }
  else
    match sections.findIdx? (fun sec => !(findAllTag "h2" [sec]).isEmpty) with
    | none => { introHtml := html, remaining := "" }
    | some j =>
      { introHtml := renderNodes (sections.take j)
        remaining := renderNodes (sections.drop j) }

/-- The body of `extractIntro`'s try (everything that could throw). -/
def extractIntroBody (html : String) : Except String IntroResult :=
  (parseHtml html).map (extractIntroCore html)

/-- `extractIntro`: the catch clause falls back to
`{introHtml: html, remaining: ''}`. -/
def extractIntro (html : String) : IntroResult :=
  match extractIntroBody html with
  | Except.ok r => r
  | Except.error _ => { introHtml := html, remaining := "" }

/-- One iteration of the section-container strategy: a section-container
becomes a section when it holds an `h2` and serializes (whole, heading not
removed) to something non-blank. -/
def contSecOne (idx : Nat) (sec : Node) : Option ArticleSection :=
  match (findAllTag "h2" [sec]).head? with
  | none => none
  | some (_, h2n) =>
    let t := jsTrim (textContent1 h2n)
    let heading := if t = "" then "Section" else t
    let shtml := renderNodes [sec]
    if shtml ≠ "" ∧ jsTrim shtml ≠ "" then
      some { id := "section-" ++ toString idx, heading := heading, html := shtml }
    else none

/-- The section-container strategy of `splitIntoSections`: the running index
increments only when a section is actually pushed. -/
def containerSections (idx : Nat) : List Node → List ArticleSection
  | [] => []
  | sec :: rest =>
    match contSecOne idx sec with
    | some s => s :: containerSections (idx + 1) rest
    | none => containerSections idx rest

/-- One iteration of the flat `h2` fallback strategy: the section for the
`idx`-th `h2` (at path `p` in the body's children `bc`) spans from the child
containing it up to (excluding) the child containing the next `h2` (whose
path head is `nexthead`), or to the end of the children. -/
def flatSecOne (bc : List Node) (idx : Nat) (p : List Nat) (h2n : Node)
    (nexthead : Option (List Nat)) : Option ArticleSection :=
  let t := jsTrim (textContent1 h2n)
  let heading := if t = "" then "Section" else t
  let i := p.headD 0
  let endIdx :=
    match nexthead with
    | some p2 => if i + 1 ≤ p2.headD 0 then p2.headD 0 else bc.length
    | none => bc.length
  let nodes := (bc.drop i).take (endIdx - i)
  if nodes.isEmpty then none
  else
    let shtml := renderNodes nodes
    if shtml ≠ "" ∧ jsTrim shtml ≠ "" then
      some { id := "section-" ++ toString idx, heading := heading, html := shtml }
    else none

/-- The flat `h2` fallback strategy of `splitIntoSections`: the `forEach`
index `idx` names the section even when earlier headings produced none. -/
def flatSections (bc : List Node) (idx : Nat) : List (List Nat × Node) → List ArticleSection
  | [] => []
  | (p, h2n) :: rest =>
    match flatSecOne bc idx p h2n (rest.head?.map (fun x => x.1)) with
    | some s => s :: flatSections bc (idx + 1) rest
    | none => flatSections bc (idx + 1) rest

/-- The try-block of `splitIntoSections`, given a successfully parsed
document. -/
def splitCore (html : String) (dom : Document) : List ArticleSection :=
  let bc := bodyChildrenOf dom
  let sectionElements := bc.filter (isTagB "section")
  if sectionElements.isEmpty then
    let h2s := findAllTag "h2" bc
    if h2s.isEmpty then [{ id := "section-0", heading := "Content", html := html }]
    else flatSections bc 0 h2s
  else containerSections 0 sectionElements

/-- The body of `splitIntoSections`'s try. -/
def splitBody (html : String) : Except String (List ArticleSection) :=
  (parseHtml html).map (splitCore html)

/-- `splitIntoSections`: the early guard returns `[]` for a falsy or
whitespace-only input before the try; the catch clause falls back to the
single `Content` section. -/
def splitIntoSections (html : String) : List ArticleSection :=
  if html = "" ∨ jsTrim html = "" then []
  else
    match splitBody html with
    | Except.ok l => l
    | Except.error _ => [{ id := "section-0", heading := "Content", html := html }]

/-- The parsed-article record the article screen builds
(`parseArticleHtml` in the article content hook). -/
structure ParsedContent where
  infoboxHtml : String
  infoboxImage : Option InfoboxImage
  introHtml : String
  sectionsHtml : List ArticleSection
deriving DecidableEq, Repr

/-- The composed pipeline: `extractInfobox`, then `extractIntro` on its
`remaining`, then `splitIntoSections` on the post-intro `remaining`. -/
def sectionArticle (html : String) : ParsedContent :=
  let ib := extractInfobox html
  let intro := extractIntro ib.remaining
  let sections := splitIntoSections intro.remaining
  { infoboxHtml := ib.infoboxHtml, infoboxImage := ib.infoboxImage
    introHtml := intro.introHtml, sectionsHtml := sections }

/-! ## Support lemmas: prefixes of character lists -/

theorem listPref_self_append (l t : List Char) : listPref l (l ++ t) = true := by
  induction l with
  | nil => rfl
  | cons a as ih => simp [listPref, ih]

theorem listPref_ex {pre l : List Char} (h : listPref pre l = true) :
    ∃ t, l = pre ++ t := by
  induction pre generalizing l with
  | nil => exact ⟨l, rfl⟩
  | cons a as ih =>
    cases l with
    | nil => simp [listPref] at h
    | cons b bs =>
      simp only [listPref, Bool.and_eq_true, beq_iff_eq] at h
      obtain ⟨t, ht⟩ := ih h.2
      exact ⟨t, by rw [h.1, ht]; rfl⟩

theorem listPref_of_append {pre l : List Char} (h : listPref pre l = true) (t : List Char) :
    listPref pre (l ++ t) = true := by
  obtain ⟨u, hu⟩ := listPref_ex h
  rw [hu, List.append_assoc]
  exact listPref_self_append _ _

/-! ## Support lemmas: well-formedness of parsed trees

`htmlparser2` never attaches children to a void element; the serialization
lemmas below need that invariant, so it is proved of every `parseDocument`
output. -/

mutual

/-- A node is well formed when void elements have no children, recursively. -/
def wfN : Node → Bool
  | Node.element nm _ cs => (!(voidTags.contains nm) || cs.isEmpty) && wfL cs
  | Node.text _ => true
  | Node.comment _ => true
  | Node.directive _ => true

/-- All nodes of a list are well formed. -/
def wfL : List Node → Bool
  | [] => true
  | n :: t => wfN n && wfL t

end

theorem wfL_mem {l : List Node} {n : Node} (hm : n ∈ l) (hw : wfL l = true) :
    wfN n = true := by
  induction l with
  | nil => cases hm
  | cons a t ih =>
    rw [wfL, Bool.and_eq_true] at hw
    rcases List.mem_cons.mp hm with h | h
    · rw [h]; exact hw.1
    · exact ih h hw.2

theorem wfL_append {l₁ l₂ : List Node} :
    wfL (l₁ ++ l₂) = (wfL l₁ && wfL l₂) := by
  induction l₁ with
  | nil => simp [wfL]
  | cons a t ih => simp [wfL, ih, Bool.and_assoc]

theorem wfL_reverse {l : List Node} : wfL l.reverse = wfL l := by
  induction l with
  | nil => rfl
  | cons a t ih =>
    simp [wfL, List.reverse_cons, wfL_append, ih, Bool.and_comm]

/-- Builder frames carry a non-void name and well-formed children. -/
def wfFrame (f : String × List (String × String) × List Node) : Bool :=
  !(voidTags.contains f.1) && wfL f.2.2

/-- All frames of a stack are well formed. -/
def wfStack : List (String × List (String × String) × List Node) → Bool
  | [] => true
  | f :: r => wfFrame f && wfStack r

/-- Builder state invariant. -/
def wfState (st : BState) : Bool :=
  wfStack st.stack && wfL st.top

theorem wfState_addNode {st : BState} {n : Node} (hst : wfState st = true)
    (hn : wfN n = true) : wfState (addNode st n) = true := by
  rcases st with ⟨stack, top⟩
  unfold wfState at hst ⊢
  unfold addNode
  cases stack with
  | nil =>
    cases n with
    | text s =>
      cases top with
      | nil => simp_all [wfStack, wfL, wfN]
      | cons hd t =>
        cases hd <;> simp_all [wfStack, wfL, wfN]
    | element nm ats cs => simp_all [wfStack, wfL]
    | comment s => simp_all [wfStack, wfL, wfN]
    | directive s => simp_all [wfStack, wfL, wfN]
  | cons f r =>
    rcases f with ⟨nm, ats, cs⟩
    cases n with
    | text s =>
      cases cs with
      | nil => simp_all [wfStack, wfFrame, wfL, wfN]
      | cons hd t =>
        cases hd <;> simp_all [wfStack, wfFrame, wfL, wfN]
    | element nm' ats' cs' => simp_all [wfStack, wfFrame, wfL]
    | comment s => simp_all [wfStack, wfFrame, wfL, wfN]
    | directive s => simp_all [wfStack, wfFrame, wfL, wfN]

theorem wfState_popFrame {st : BState} (hst : wfState st = true) :
    wfState (popFrame st) = true := by
  rcases st with ⟨stack, top⟩
  unfold popFrame
  cases stack with
  | nil => exact hst
  | cons f r =>
    rcases f with ⟨nm, ats, cs⟩
    unfold wfState at hst
    simp only [wfStack, Bool.and_eq_true, wfFrame, Bool.not_eq_true'] at hst
    refine wfState_addNode ?_ ?_
    · unfold wfState
      simp only [Bool.and_eq_true]
      exact ⟨hst.1.2, hst.2⟩
    · rw [wfN, Bool.and_eq_true, Bool.or_eq_true]
      refine ⟨Or.inl (by rw [hst.1.1.1]; rfl), ?_⟩
      rw [wfL_reverse]
      exact hst.1.1.2

theorem wfState_popUntil (fuel : Nat) :
    ∀ (st : BState) (nm : String), wfState st = true →
      wfState (popUntil fuel st nm) = true := by
  induction fuel with
  | zero => intro st nm hst; exact hst
  | succ fuel ih =>
    intro st nm hst
    unfold popUntil
    cases hs : st.stack with
    | nil => exact hst
    | cons f r =>
      rcases f with ⟨nm', ats, cs⟩
      dsimp only
      by_cases he : nm' = nm
      · rw [if_pos he]
        exact wfState_popFrame hst
      · rw [if_neg he]
        exact ih _ _ (wfState_popFrame hst)

theorem wfState_closeFrames (st : BState) (nm : String) :
    wfState st = true → wfState (closeFrames st nm) = true := by
  intro hst
  unfold closeFrames
  by_cases h : (st.stack.map (fun f => f.1)).contains nm
  · rw [if_pos h]
    exact wfState_popUntil _ _ _ hst
  · rw [if_neg h]
    exact hst

theorem wfState_buildStep {st : BState} (t : Tok) (hst : wfState st = true) :
    wfState (buildStep st t) = true := by
  cases t with
  | topen nm ats =>
    rw [buildStep]
    by_cases hv : voidTags.contains nm
    · rw [if_pos hv]
      exact wfState_addNode hst (by simp [wfN, wfL])
    · rw [if_neg hv]
      rcases st with ⟨stack, top⟩
      unfold wfState at hst ⊢
      simp only [wfStack, Bool.and_eq_true, wfFrame] at *
      exact ⟨⟨⟨by simpa using hv, rfl⟩, hst.1⟩, hst.2⟩
  | tclose nm => exact wfState_closeFrames st nm hst
  | ttext s => exact wfState_addNode hst rfl
  | tcomment s => exact wfState_addNode hst rfl
  | tdirective s => exact wfState_addNode hst rfl

theorem wfState_foldl (toks : List Tok) :
    ∀ st : BState, wfState st = true → wfState (toks.foldl buildStep st) = true := by
  induction toks with
  | nil => intro st h; exact h
  | cons t ts ih =>
    intro st h
    exact ih _ (wfState_buildStep t h)

theorem wfState_finishN (fuel : Nat) :
    ∀ st : BState, wfState st = true → wfState (finishN fuel st) = true := by
  induction fuel with
  | zero => intro st hst; exact hst
  | succ fuel ih =>
    intro st hst
    unfold finishN
    cases hs : st.stack with
    | nil => exact hst
    | cons f r => exact ih _ (wfState_popFrame hst)

theorem wfState_finishAll (st : BState) :
    wfState st = true → wfState (finishAll st) = true := by
  intro hst
  exact wfState_finishN _ _ hst

/-- Every parsed document is well formed: no void element carries children. -/
theorem wfL_parseDocument (s : String) : wfL (parseDocument s).children = true := by
  unfold parseDocument
  rw [wfL_reverse]
  have h := wfState_finishAll _
    (wfState_foldl (lexTokens (s.data.length + 1) s.data) ⟨[], []⟩ rfl)
  unfold wfState at h
  rw [Bool.and_eq_true] at h
  exact h.2

/-! ## Support lemmas: subtrees, rendering, membership -/

mutual

/-- Well-formedness passes to any node of a subtree. -/
theorem wfN_subtreeN (n : Node) :
    ∀ p m, (p, m) ∈ subtreePathsN n → wfN n = true → wfN m = true := by
  intro p m hm hw
  cases n with
  | element nm ats cs =>
    rw [subtreePathsN] at hm
    rcases List.mem_cons.mp hm with h | h
    · cases h; exact hw
    · rw [wfN, Bool.and_eq_true] at hw
      exact wfN_subtreeF cs 0 p m h hw.2
  | text s =>
    rw [subtreePathsN] at hm
    have h := List.mem_singleton.mp hm
    cases h; exact hw
  | comment s =>
    rw [subtreePathsN] at hm
    have h := List.mem_singleton.mp hm
    cases h; exact hw
  | directive s =>
    rw [subtreePathsN] at hm
    have h := List.mem_singleton.mp hm
    cases h; exact hw

/-- Well-formedness passes to any node of a forest's subtrees. -/
theorem wfN_subtreeF (ns : List Node) :
    ∀ i p m, (p, m) ∈ subtreePathsF i ns → wfL ns = true → wfN m = true := by
  intro i p m hm hw
  cases ns with
  | nil => rw [subtreePathsF] at hm; cases hm
  | cons n rest =>
    rw [subtreePathsF] at hm
    rw [wfL, Bool.and_eq_true] at hw
    rcases List.mem_append.mp hm with h | h
    · obtain ⟨⟨p', m'⟩, hmem, heq⟩ := List.mem_map.mp h
      cases heq
      exact wfN_subtreeN n p' m' hmem hw.1
    · exact wfN_subtreeF rest (i + 1) p m h hw.2

end

mutual

/-- Any node of a (well-formed) subtree renders to an infix of the root's
rendering. -/
theorem render_infix_subN (n : Node) :
    ∀ p m, (p, m) ∈ subtreePathsN n → wfN n = true →
      (render1 m).data <:+: (render1 n).data := by
  intro p m hm hw
  cases n with
  | element nm ats cs =>
    rw [subtreePathsN] at hm
    rcases List.mem_cons.mp hm with h | h
    · cases h; exact List.infix_rfl
    · rw [wfN, Bool.and_eq_true, Bool.or_eq_true, Bool.not_eq_true'] at hw
      have hsub : (render1 m).data <:+: (renderNodes cs).data :=
        render_infix_subF cs 0 p m h hw.2
      refine hsub.trans ?_
      rcases hw.1 with hv | he
      · rw [render1, if_neg (by rw [hv]; simp), String.data_append, String.data_append]
        exact ⟨(renderOpenTag nm ats).data,
          ("</" ++ (nm ++ ">")).data, by rw [List.append_assoc]⟩
      · rw [List.isEmpty_iff] at he
        subst he
        cases h
  | text s =>
    rw [subtreePathsN] at hm
    have h := List.mem_singleton.mp hm
    cases h; exact List.infix_rfl
  | comment s =>
    rw [subtreePathsN] at hm
    have h := List.mem_singleton.mp hm
    cases h; exact List.infix_rfl
  | directive s =>
    rw [subtreePathsN] at hm
    have h := List.mem_singleton.mp hm
    cases h; exact List.infix_rfl

/-- Any node of a (well-formed) forest's subtrees renders to an infix of the
forest's rendering. -/
theorem render_infix_subF (ns : List Node) :
    ∀ i p m, (p, m) ∈ subtreePathsF i ns → wfL ns = true →
      (render1 m).data <:+: (renderNodes ns).data := by
  intro i p m hm hw
  cases ns with
  | nil => rw [subtreePathsF] at hm; cases hm
  | cons n rest =>
    rw [subtreePathsF] at hm
    rw [wfL, Bool.and_eq_true] at hw
    rcases List.mem_append.mp hm with h | h
    · obtain ⟨⟨p', m'⟩, hmem, heq⟩ := List.mem_map.mp h
      cases heq
      have := render_infix_subN n p' m' hmem hw.1
      refine this.trans ?_
      rw [renderNodes, String.data_append]
      exact (List.prefix_append _ _).isInfix
    · have := render_infix_subF rest (i + 1) p m h hw.2
      refine this.trans ?_
      rw [renderNodes, String.data_append]
      exact (List.suffix_append _ _).isInfix

end

/-- Decompose membership in a forest's subtree list: the path begins with
the index of the root whose subtree holds the node. -/
theorem subtreePathsF_decomp (ns : List Node) :
    ∀ i p m, (p, m) ∈ subtreePathsF i ns →
      ∃ j rest root, p = (i + j) :: rest ∧ ns.get? j = some root ∧
        (rest, m) ∈ subtreePathsN root := by
  induction ns with
  | nil => intro i p m hm; rw [subtreePathsF] at hm; cases hm
  | cons n t ih =>
    intro i p m hm
    rw [subtreePathsF] at hm
    rcases List.mem_append.mp hm with h | h
    · obtain ⟨⟨p', m'⟩, hmem, heq⟩ := List.mem_map.mp h
      cases heq
      exact ⟨0, p', n, by simp, rfl, hmem⟩
    · obtain ⟨j, rest, root, h1, h2, h3⟩ := ih (i + 1) p m h
      refine ⟨j + 1, rest, root, ?_, h2, h3⟩
      rw [h1]
      congr 1
      omega

/-- A node passing the tag test is an element of that name. -/
theorem isTagB_eq {t : String} {m : Node} (h : isTagB t m = true) :
    ∃ ats cs, m = Node.element t ats cs := by
  cases m with
  | element nm ats cs =>
    rw [isTagB, beq_iff_eq] at h
    exact ⟨ats, cs, by rw [h]⟩
  | text s => cases h
  | comment s => cases h
  | directive s => cases h

/-- The serialization of a non-void element starts with its open-angle tag
name. -/
theorem openTag_pref (nm : String) (ats : List (String × String)) (cs : List Node)
    (hv : voidTags.contains nm = false) :
    ("<" ++ nm).data <+: (render1 (Node.element nm ats cs)).data := by
  rw [render1, if_neg (by rw [hv]; simp)]
  refine ⟨(renderAttrs ats ++ ">").data ++ (renderNodes cs ++ ("</" ++ (nm ++ ">"))).data, ?_⟩
  simp [renderOpenTag, String.data_append, List.append_assoc]

/-- A successful `findFirstTag` found a member of the subtree list passing
the tag test. -/
theorem findFirstTag_mem {t : String} {ns : List Node} {x : List Nat × Node}
    (h : findFirstTag t ns = some x) :
    x ∈ subtreePathsF 0 ns ∧ isTagB t x.2 = true := by
  rw [findFirstTag] at h
  have hm : x ∈ findAllTag t ns := List.mem_of_mem_head? (Option.mem_def.mpr h)
  rw [findAllTag] at hm
  exact List.mem_filter.mp hm

/-- The body's children of a well-formed document are well formed. -/
theorem wfL_bodyChildrenOf {dom : Document} (hw : wfL dom.children = true) :
    wfL (bodyChildrenOf dom) = true := by
  rw [bodyChildrenOf]
  cases hb : findFirstTag "body" dom.children with
  | none => exact hw
  | some x =>
    rcases x with ⟨p, nd⟩
    have hmem := (findFirstTag_mem hb).1
    have hwn : wfN nd = true := wfN_subtreeF dom.children 0 p nd hmem hw
    cases nd with
    | element nm ats cs =>
      rw [wfN, Bool.and_eq_true] at hwn
      exact hwn.2
    | text s => exact hw
    | comment s => exact hw
    | directive s => exact hw

/-- A pushed container-strategy section has non-blank html. -/
theorem contSecOne_trim {idx : Nat} {secN : Node} {s : ArticleSection}
    (h : contSecOne idx secN = some s) : jsTrim s.html ≠ "" := by
  rw [contSecOne] at h
  split at h
  · cases h
  · dsimp only at h
    split at h
    · rename_i cond
      cases h
      exact cond.2
    · cases h

/-- A pushed flat-strategy section has non-blank html. -/
theorem flatSecOne_trim {bc : List Node} {idx : Nat} {p : List Nat} {h2n : Node}
    {nh : Option (List Nat)} {s : ArticleSection}
    (h : flatSecOne bc idx p h2n nh = some s) : jsTrim s.html ≠ "" := by
  unfold flatSecOne at h
  dsimp only at h
  split at h
  · cases h
  · split at h
    · rename_i cond
      cases h
      exact cond.2
    · cases h

/-- Every container-strategy section has non-blank html. -/
theorem containerSections_trim :
    ∀ (l : List Node) (idx : Nat) (s : ArticleSection),
      s ∈ containerSections idx l → jsTrim s.html ≠ "" := by
  intro l
  induction l with
  | nil =>
    intro idx s hs
    rw [containerSections] at hs
    cases hs
  | cons n t ih =>
    intro idx s hs
    rw [containerSections] at hs
    cases hc : contSecOne idx n with
    | some s0 =>
      rw [hc] at hs
      rcases List.mem_cons.mp hs with h | h
      · subst h; exact contSecOne_trim hc
      · exact ih _ _ h
    | none =>
      rw [hc] at hs
      exact ih _ _ hs

/-- A pushed container-strategy section retains its `h2` heading markup in
its serialized html. -/
theorem contSecOne_infix {idx : Nat} {secN : Node} {s : ArticleSection}
    (hwf : wfN secN = true) (h : contSecOne idx secN = some s) :
    "<h2".data <:+: s.html.data := by
  rw [contSecOne] at h
  cases hh : (findAllTag "h2" [secN]).head? with
  | none => rw [hh] at h; cases h
  | some pm =>
    rcases pm with ⟨p, h2n⟩
    rw [hh] at h
    dsimp only at h
    split at h
    · cases h
      have hmem : (p, h2n) ∈ findAllTag "h2" [secN] :=
        List.mem_of_mem_head? (Option.mem_def.mpr hh)
      rw [findAllTag] at hmem
      have hmem' := List.mem_filter.mp hmem
      have htag2 : isTagB "h2" h2n = true := hmem'.2
      obtain ⟨ats, cs, heq⟩ := isTagB_eq htag2
      have hinfix : (render1 h2n).data <:+: (renderNodes [secN]).data :=
        render_infix_subF [secN] 0 p h2n hmem'.1 (by rw [wfL, hwf]; rfl)
      have hpref : "<h2".data <+: (render1 h2n).data := by
        rw [heq]
        exact openTag_pref "h2" ats cs (by decide)
      exact hpref.isInfix.trans hinfix
    · cases h

/-- A pushed flat-strategy section retains its `h2` heading markup in its
serialized html. -/
theorem flatSecOne_infix {bc : List Node} {idx : Nat} {p : List Nat} {h2n : Node}
    {nh : Option (List Nat)} {s : ArticleSection} (hwf : wfL bc = true)
    (hmem : (p, h2n) ∈ subtreePathsF 0 bc) (htag : isTagB "h2" h2n = true)
    (h : flatSecOne bc idx p h2n nh = some s) :
    "<h2".data <:+: s.html.data := by
  obtain ⟨j, rest', root, hp, hget, hmemN⟩ := subtreePathsF_decomp bc 0 p h2n hmem
  obtain ⟨hjlt, hgeteq⟩ := List.get?_eq_some.mp hget
  have hrwf : wfN root = true := wfL_mem (List.get?_mem hget) hwf
  have hrinfix : (render1 h2n).data <:+: (render1 root).data :=
    render_infix_subN root rest' h2n hmemN hrwf
  obtain ⟨ats, cs, heq⟩ := isTagB_eq htag
  have hpref : "<h2".data <+: (render1 h2n).data := by
    rw [heq]
    exact openTag_pref "h2" ats cs (by decide)
  have hi : p.headD 0 = j := by rw [hp]; simp
  have hdrop : bc.drop j = root :: bc.drop (j + 1) := by
    rw [List.drop_eq_get_cons hjlt, hgeteq]
  unfold flatSecOne at h
  dsimp only at h
  rw [hi, hdrop] at h
  cases nh with
  | none =>
    dsimp only at h
    cases hk : bc.length - j with
    | zero => exact absurd hk (by omega)
    | succ m =>
      rw [hk, List.take_succ_cons] at h
      split at h
      · cases h
      · split at h
        · cases h
          refine (hpref.isInfix.trans hrinfix).trans ?_
          rw [renderNodes, String.data_append]
          exact (List.prefix_append _ _).isInfix
        · cases h
  | some p2 =>
    dsimp only at h
    by_cases hle : j + 1 ≤ p2.headD 0
    · rw [if_pos hle] at h
      cases hk : p2.headD 0 - j with
      | zero => exact absurd hk (by omega)
      | succ m =>
        rw [hk, List.take_succ_cons] at h
        split at h
        · cases h
        · split at h
          · cases h
            refine (hpref.isInfix.trans hrinfix).trans ?_
            rw [renderNodes, String.data_append]
            exact (List.prefix_append _ _).isInfix
          · cases h
    · rw [if_neg hle] at h
      cases hk : bc.length - j with
      | zero => exact absurd hk (by omega)
      | succ m =>
        rw [hk, List.take_succ_cons] at h
        split at h
        · cases h
        · split at h
          · cases h
            refine (hpref.isInfix.trans hrinfix).trans ?_
            rw [renderNodes, String.data_append]
            exact (List.prefix_append _ _).isInfix
          · cases h

/-- Every flat-strategy section (over `h2` hits of the body's children)
retains its heading markup. -/
theorem flatSections_infix (bc : List Node) (hwf : wfL bc = true) :
    ∀ (l : List (List Nat × Node)) (idx : Nat),
      (∀ x ∈ l, x ∈ subtreePathsF 0 bc ∧ isTagB "h2" x.2 = true) →
      ∀ s ∈ flatSections bc idx l, "<h2".data <:+: s.html.data := by
  intro l
  induction l with
  | nil =>
    intro idx _ s hs
    rw [flatSections] at hs
    cases hs
  | cons x t ih =>
    rcases x with ⟨p, h2n⟩
    intro idx hall s hs
    rw [flatSections] at hs
    cases hc : flatSecOne bc idx p h2n (t.head?.map (fun y => y.1)) with
    | some s0 =>
      rw [hc] at hs
      rcases List.mem_cons.mp hs with h | h
      · subst h
        have hx := hall (p, h2n) (List.mem_cons_self _ _)
        exact flatSecOne_infix hwf hx.1 hx.2 hc
      · exact ih _ (fun y hy => hall y (List.mem_cons_of_mem _ hy)) s h
    | none =>
      rw [hc] at hs
      exact ih _ (fun y hy => hall y (List.mem_cons_of_mem _ hy)) s hs

/-- Every container-strategy section (over well-formed containers) retains
its heading markup. -/
theorem containerSections_infix :
    ∀ (l : List Node) (idx : Nat), (∀ n ∈ l, wfN n = true) →
      ∀ s ∈ containerSections idx l, "<h2".data <:+: s.html.data := by
  intro l
  induction l with
  | nil =>
    intro idx _ s hs
    rw [containerSections] at hs
    cases hs
  | cons n t ih =>
    intro idx hall s hs
    rw [containerSections] at hs
    cases hc : contSecOne idx n with
    | some s0 =>
      rw [hc] at hs
      rcases List.mem_cons.mp hs with h | h
      · subst h
        exact contSecOne_infix (hall n (List.mem_cons_self _ _)) hc
      · exact ih _ (fun y hy => hall y (List.mem_cons_of_mem _ hy)) s h
    | none =>
      rw [hc] at hs
      exact ih _ (fun y hy => hall y (List.mem_cons_of_mem _ hy)) s hs

/-- Every flat-strategy section has non-blank html. -/
theorem flatSections_trim (bc : List Node) :
    ∀ (l : List (List Nat × Node)) (idx : Nat) (s : ArticleSection),
      s ∈ flatSections bc idx l → jsTrim s.html ≠ "" := by
  intro l
  induction l with
  | nil =>
    intro idx s hs
    rw [flatSections] at hs
    cases hs
  | cons x t ih =>
    rcases x with ⟨p, h2n⟩
    intro idx s hs
    rw [flatSections] at hs
    cases hc : flatSecOne bc idx p h2n (t.head?.map (fun y => y.1)) with
    | some s0 =>
      rw [hc] at hs
      rcases List.mem_cons.mp hs with h | h
      · subst h; exact flatSecOne_trim hc
      · exact ih _ _ h
    | none =>
      rw [hc] at hs
      exact ih _ _ hs

/-! ## Properties of the pipeline -/

set_option maxRecDepth 100000

deriving instance DecidableEq for Except

/-- C6: `parseHtml(html)` throws an invalid-input error if and only if the
input is the empty string (the null/undefined/non-string cases cannot arise
in a typed embedding); for every non-empty string input it returns the
parsed document without throwing, however malformed the markup —
`parseDocument` is total. -/
theorem c6_parseHtml_invalid_iff (s : String) :
    (parseHtml s = Except.error "Invalid HTML input" ↔ s = "") ∧
    (s ≠ "" → parseHtml s = Except.ok (parseDocument s)) := by
  constructor
  · constructor
    · intro h
      by_contra hne
      rw [parseHtml, if_neg hne] at h
      cases h
    · intro h
      subst h
      rfl
  · intro h
    rw [parseHtml, if_neg h]

/-- C6 witness: at the concrete non-empty (malformed) input `"<p"`,
`parseHtml` returns a parsed document. -/
theorem c6_parseHtml_invalid_iff_witness :
    parseHtml "<p" = Except.ok (parseDocument "<p") :=
  (c6_parseHtml_invalid_iff "<p").2 (by decide)

/-- C10: for every string that is empty or whitespace-only, the early guard
of `splitIntoSections` returns the empty section list — no `Content`
fallback section and no parse attempt. -/
theorem c10_blank_input_no_sections (s : String) (h : jsTrim s = "") :
    splitIntoSections s = [] := by
  rw [splitIntoSections, if_pos (Or.inr h)]

/-- C10 witness: the whitespace-only input `"  \n "` yields no sections. -/
theorem c10_blank_input_no_sections_witness :
    splitIntoSections "  \n " = [] :=
  c10_blank_input_no_sections "  \n " (by decide)

/-- C9: the composed pipeline is deterministic — it is a pure function of
its input string, so two invocations on byte-identical input agree on every
component (infobox html, infobox image, intro html and the ordered section
list with ids, headings and html). -/
theorem c9_pipeline_deterministic (h : String) :
    (sectionArticle h).infoboxHtml = (sectionArticle h).infoboxHtml ∧
    (sectionArticle h).infoboxImage = (sectionArticle h).infoboxImage ∧
    (sectionArticle h).introHtml = (sectionArticle h).introHtml ∧
    (sectionArticle h).sectionsHtml = (sectionArticle h).sectionsHtml ∧
    sectionArticle h = sectionArticle h :=
  ⟨rfl, rfl, rfl, rfl, rfl⟩

/-- C3: `extractIntro` and `splitIntoSections` never throw (they are total
functions in this embedding, as every code path of the source is inside a
try/catch); when the body of `extractIntro`'s try throws, the catch returns
the fallback `{introHtml: original, remaining: ""}`; and for every input
reaching `splitIntoSections`'s try (non-blank after trim), the try body in
fact succeeds, and its value is returned unchanged — the `Content` fallback
of its catch clause is reserved for exceptions, which the parse layer never
produces there. -/
theorem c3_never_throws (s : String) :
    (∀ e, extractIntroBody s = Except.error e →
      extractIntro s = { introHtml := s, remaining := "" }) ∧
    (jsTrim s ≠ "" → ∃ l, splitBody s = Except.ok l ∧ splitIntoSections s = l) := by
  constructor
  · intro e he
    rw [extractIntro, he]
  · intro hts
    have hs : s ≠ "" := fun h => hts (by rw [h]; rfl)
    have hp : parseHtml s = Except.ok (parseDocument s) := by
      rw [parseHtml, if_neg hs]
    refine ⟨splitCore s (parseDocument s), ?_, ?_⟩
    · rw [splitBody, hp]
      rfl
    · rw [splitIntoSections, if_neg (by push_neg; exact ⟨hs, hts⟩), splitBody, hp]
      rfl

/-- C3 witness: the empty string makes `extractIntroBody` throw and
`extractIntro` return the fallback; the non-blank input `"<p>a</p>"` drives
`splitIntoSections` through a successful try body. -/
theorem c3_never_throws_witness :
    extractIntro "" = { introHtml := "", remaining := "" } ∧
    splitIntoSections "<p>a</p>" =
      [{ id := "section-0", heading := "Content", html := "<p>a</p>" }] := by
  refine ⟨(c3_never_throws "").1 "Invalid HTML input" (by decide), ?_⟩
  obtain ⟨l, h1, h2⟩ := (c3_never_throws "<p>a</p>").2 (by decide)
  have h3 : splitBody "<p>a</p>" =
      Except.ok [({ id := "section-0", heading := "Content", html := "<p>a</p>" } : ArticleSection)] := by
    decide
  rw [h3] at h1
  cases h1
  exact h2

/-- C8: for every parseable HTML string with no element carrying an
`infobox` class, `extractInfobox` returns empty `infoboxHtml`, no
`infoboxImage`, and passes the input string through byte-identical as
`remaining` (this is the not-an-error path). -/
theorem c8_no_infobox_passthrough (s : String)
    (h : (findFirstClass "infobox" (parseDocument s).children).isNone = true) :
    extractInfobox s = { infoboxHtml := "", infoboxImage := none, remaining := s } := by
  by_cases hs : s = ""
  · subst hs
    rfl
  · rw [extractInfobox, parseHtml, if_neg hs]
    dsimp only
    rw [Option.isNone_iff_eq_none.mp h]

/-- C8 witness: the infobox-free input `"<p>hi</p>"` passes through
unchanged. -/
theorem c8_no_infobox_passthrough_witness :
    extractInfobox "<p>hi</p>" =
      { infoboxHtml := "", infoboxImage := none, remaining := "<p>hi</p>" } :=
  c8_no_infobox_passthrough "<p>hi</p>" (by decide)

theorem normalizeSrc_protocol_relative {raw : String}
    (h : jsStartsWith raw "//" = true) :
    normalizeSrc raw = "https:" ++ raw ∧
    jsStartsWith (normalizeSrc raw) "https://" = true := by
  have h' : listPref "//".data raw.data = true := h
  obtain ⟨t, ht⟩ := listPref_ex h'
  have hx : jsStartsWith ("https:" ++ raw) "/" = false := by
    rw [jsStartsWith, String.data_append]
    rfl
  have heq : normalizeSrc raw = "https:" ++ raw := by
    simp [normalizeSrc, h, hx]
  refine ⟨heq, ?_⟩
  rw [heq, jsStartsWith]
  have hd : ("https:" ++ raw).data = "https://".data ++ t := by
    rw [String.data_append, ht]
    rfl
  rw [hd]
  exact listPref_self_append _ _

theorem normalizeSrc_root_relative {raw : String}
    (h1 : jsStartsWith raw "/" = true) (h2 : jsStartsWith raw "//" = false) :
    normalizeSrc raw = "https://en.wikipedia.org" ++ raw ∧
    jsStartsWith (normalizeSrc raw) "https://" = true := by
  have heq : normalizeSrc raw = "https://en.wikipedia.org" ++ raw := by
    simp [normalizeSrc, h1, h2]
  refine ⟨heq, ?_⟩
  rw [heq, jsStartsWith, String.data_append]
  exact listPref_of_append
    (by decide : listPref "https://".data "https://en.wikipedia.org".data = true) _

theorem normalizeSrc_other {raw : String}
    (h : jsStartsWith raw "/" = false) : normalizeSrc raw = raw := by
  have h2 : jsStartsWith raw "//" = false := by
    cases hww : jsStartsWith raw "//" with
    | false => rfl
    | true =>
      obtain ⟨t, ht⟩ := listPref_ex (hww : listPref "//".data raw.data = true)
      have : jsStartsWith raw "/" = true := by
        rw [jsStartsWith, ht]
        rfl
      rw [this] at h
      cases h
  simp [normalizeSrc, h, h2]

/-- Input of the C4 counterexample: an infobox image with a bare relative
`src`. -/
def c4Input : String := "<div class=\"infobox\"><img src=\"pic.png\"></div>"

/-- C4 counterexample: for a bare relative `src` value, `extractInfobox`
returns a non-null `infoboxImage` whose `src` is the raw value `"pic.png"`,
not an absolute `https` URL — refuting the claim that every non-null
`infoboxImage.src` is `https`-absolute. -/
theorem c4_bare_relative_src :
    (extractInfobox c4Input).infoboxImage.map (fun r => r.src) = some "pic.png" ∧
    (extractInfobox c4Input).infoboxImage.map (fun r => jsStartsWith r.src "https://")
      = some false := by
  decide

/-- C4 (amended): `extractInfoboxImage` normalizes the first image's raw
`src` in exactly two cases — a protocol-relative `//` value gets `https:`
prepended and a root-relative `/` value is resolved against
`https://en.wikipedia.org`, both yielding `https://`-prefixed absolute URLs;
every other value (bare relative paths, other schemes, the empty string) is
passed through unchanged. -/
theorem c4_src_normalization (h : String) (r : InfoboxImage)
    (hr : extractInfoboxImage h = some r) :
    r.src = normalizeSrc (rawImgSrc h) ∧
    (jsStartsWith (rawImgSrc h) "//" = true →
      r.src = "https:" ++ rawImgSrc h ∧ jsStartsWith r.src "https://" = true) ∧
    (jsStartsWith (rawImgSrc h) "/" = true → jsStartsWith (rawImgSrc h) "//" = false →
      r.src = "https://en.wikipedia.org" ++ rawImgSrc h ∧
        jsStartsWith r.src "https://" = true) ∧
    (jsStartsWith (rawImgSrc h) "/" = false → r.src = rawImgSrc h) := by
  rw [extractInfoboxImage] at hr
  cases hA : firstImgAttrs h with
  | none => rw [hA] at hr; cases hr
  | some ats =>
    rw [hA] at hr
    dsimp only at hr
    have hraw : rawImgSrc h = jsOrS (lookupA ats "src") (jsOrS (lookupA ats "data-src") "") := by
      rw [rawImgSrc, hA]
    cases hr
    refine ⟨by rw [hraw], ?_, ?_, ?_⟩
    · intro hsw
      rw [hraw] at hsw ⊢
      have hn := normalizeSrc_protocol_relative hsw
      exact ⟨hn.1, hn.2⟩
    · intro h1 h2
      rw [hraw] at h1 h2 ⊢
      have hn := normalizeSrc_root_relative h1 h2
      exact ⟨hn.1, hn.2⟩
    · intro h1
      rw [hraw] at h1 ⊢
      exact normalizeSrc_other h1

/-- The image record the C4 witness input produces. -/
def c4WImage : InfoboxImage :=
  { src := "https://x/y.png", alt := "y.png", width := some 400, height := some 300 }

/-- C4 witness: at a concrete protocol-relative `src`, the emitted value is
the `https:`-prefixed raw value, an absolute `https` URL. -/
theorem c4_src_normalization_witness :
    c4WImage.src = "https:" ++ rawImgSrc "<img src=\"//x/y.png\">" ∧
    jsStartsWith c4WImage.src "https://" = true := by
  have hr : extractInfoboxImage "<img src=\"//x/y.png\">" = some c4WImage := by decide
  exact (c4_src_normalization _ _ hr).2.1 (by decide)

/-- C7 counterexample input: a width attribute that does not parse as an
integer. -/
def c7Input : String := "<img src=\"//a\" width=\"abc\" height=\"50\">"

/-- C7 counterexample: a present-but-unparseable `width` attribute yields
`NaN` (modelled `none`), not the claimed default of 400. -/
theorem c7_unparseable_width_nan :
    (extractInfoboxImage c7Input).map InfoboxImage.width = some none ∧
    (extractInfoboxImage c7Input).map InfoboxImage.width ≠ some (some 400) := by
  decide

/-- C7 (amended): `extractInfoboxImage` parses `width`/`height` with
`parseInt`, substituting the strings `'400'`/`'300'` only when the attribute
is absent or empty (JavaScript falsiness); so the 400×300 defaults apply
exactly to absent/empty attributes, while a present non-empty value that
does not parse as an integer yields `NaN` (modelled `none`), not the
default. -/
theorem c7_dimension_defaults (h : String) (r : InfoboxImage)
    (hr : extractInfoboxImage h = some r) :
    (widthAttrOf h = none ∨ widthAttrOf h = some "" → r.width = some 400) ∧
    (heightAttrOf h = none ∨ heightAttrOf h = some "" → r.height = some 300) ∧
    (∀ w, widthAttrOf h = some w → w ≠ "" → jsParseInt w = none → r.width = none) ∧
    (∀ v, heightAttrOf h = some v → v ≠ "" → jsParseInt v = none → r.height = none) := by
  rw [extractInfoboxImage] at hr
  cases hA : firstImgAttrs h with
  | none => rw [hA] at hr; cases hr
  | some ats =>
    rw [hA] at hr
    dsimp only at hr
    have hw : widthAttrOf h = lookupA ats "width" := by rw [widthAttrOf, hA]; rfl
    have hh : heightAttrOf h = lookupA ats "height" := by rw [heightAttrOf, hA]; rfl
    cases hr
    refine ⟨?_, ?_, ?_, ?_⟩
    · intro hcase
      show jsParseInt (jsOrS (lookupA ats "width") "400") = some 400
      rcases hcase with hc | hc
      · rw [hw] at hc; rw [hc]; decide
      · rw [hw] at hc; rw [hc]; decide
    · intro hcase
      show jsParseInt (jsOrS (lookupA ats "height") "300") = some 300
      rcases hcase with hc | hc
      · rw [hh] at hc; rw [hc]; decide
      · rw [hh] at hc; rw [hc]; decide
    · intro w hlw hne hnan
      rw [hw] at hlw
      show jsParseInt (jsOrS (lookupA ats "width") "400") = none
      rw [hlw, jsOrS, if_neg hne]
      exact hnan
    · intro v hlv hne hnan
      rw [hh] at hlv
      show jsParseInt (jsOrS (lookupA ats "height") "300") = none
      rw [hlv, jsOrS, if_neg hne]
      exact hnan

/-- C7 witness input: width absent, height present but unparseable. -/
def c7WInput : String := "<img src=\"//a\" height=\"abc\">"

/-- The image record the C7 witness input produces. -/
def c7WImage : InfoboxImage :=
  { src := "https://a", alt := "a", width := some 400, height := none }

/-- C7 witness: at a concrete image with no `width` attribute and an
unparseable `height`, the width defaults to 400 and the height is `NaN`. -/
theorem c7_dimension_defaults_witness :
    c7WImage.width = some 400 ∧ c7WImage.height = none := by
  have hr : extractInfoboxImage c7WInput = some c7WImage := by decide
  have T := c7_dimension_defaults c7WInput _ hr
  exact ⟨T.1 (Or.inl (by decide)), T.2.2.2 "abc" (by decide) (by decide) (by decide)⟩

/-- Input of the C2 counterexample: one section-container with a heading. -/
def c2Input : String := "<section><h2>History</h2><p>x</p></section>"

/-- C2 counterexample: the produced section's `html` is the serialization of
the whole container, heading element included — `<h2>History</h2>` occurs in
it, refuting the claim that the heading has been stripped from `html`. -/
theorem c2_heading_leaks :
    (splitIntoSections c2Input).map ArticleSection.html =
      ["<section><h2>History</h2><p>x</p></section>"] ∧
    (splitIntoSections c2Input).map ArticleSection.heading = ["History"] ∧
    jsIncludes "<section><h2>History</h2><p>x</p></section>" "<h2>History</h2>" = true := by
  decide

/-- C2 (amended): the heading is surfaced in the separate `heading` field
but is NOT removed from `html`: whenever the parsed body has any `h2` at
all, every Section `splitIntoSections` produces (by either strategy)
contains `h2` heading markup (`"<h2"`) in its serialized `html`. -/
theorem c2_heading_retained (s : String) (sec : ArticleSection)
    (hmem : sec ∈ splitIntoSections s)
    (hh2 : (findAllTag "h2" (bodyChildrenOf (parseDocument s))).isEmpty = false) :
    "<h2".data <:+: sec.html.data := by
  rw [splitIntoSections] at hmem
  by_cases hg : s = "" ∨ jsTrim s = ""
  · rw [if_pos hg] at hmem
    cases hmem
  · rw [if_neg hg] at hmem
    push_neg at hg
    have hp : parseHtml s = Except.ok (parseDocument s) := by
      rw [parseHtml, if_neg hg.1]
    rw [splitBody, hp] at hmem
    simp only [Except.map] at hmem
    rw [splitCore] at hmem
    dsimp only at hmem
    have hwb : wfL (bodyChildrenOf (parseDocument s)) = true :=
      wfL_bodyChildrenOf (wfL_parseDocument s)
    by_cases hse : ((bodyChildrenOf (parseDocument s)).filter (isTagB "section")).isEmpty = true
    · rw [if_pos hse] at hmem
      rw [if_neg (by rw [hh2]; simp)] at hmem
      refine flatSections_infix _ hwb _ 0 ?_ sec hmem
      intro x hx
      rw [findAllTag] at hx
      exact List.mem_filter.mp hx
    · rw [if_neg hse] at hmem
      refine containerSections_infix _ 0 ?_ sec hmem
      intro n hn
      exact wfL_mem (List.mem_filter.mp hn).1 hwb

/-- The section the C2 witness input produces. -/
def c2WSec : ArticleSection :=
  { id := "section-0", heading := "A", html := "<section><h2>A</h2><p>x</p></section>" }

/-- C2 witness: at a concrete single-container input, the produced section's
html contains the heading markup. -/
theorem c2_heading_retained_witness :
    "<h2".data <:+: c2WSec.html.data := by
  exact c2_heading_retained "<section><h2>A</h2><p>x</p></section>" _ (by decide) (by decide)

/-- Input of the C5 counterexample: the document's final heading has no
following content. -/
def c5Input : String := "<p>a</p><h2>Alpha</h2><p>b</p><h2>Legacy</h2>"

/-- C5 counterexample: a final `h2` with no content before the document end
DOES produce a trailing Section — its html is exactly the heading markup
(never whitespace-only, because the heading element itself is part of the
serialized range) — refuting the claim that such a heading produces no
entry. -/
theorem c5_trailing_heading_kept :
    (splitIntoSections c5Input).map (fun sec => (sec.id, sec.heading, sec.html)) =
      [("section-0", "Alpha", "<h2>Alpha</h2><p>b</p>"),
       ("section-1", "Legacy", "<h2>Legacy</h2>")] := by
  decide

/-- C5 (amended): `splitIntoSections` drops a candidate section exactly when
its serialized html is empty or whitespace-only, so every Section it
returns has non-blank html; but since the heading element is not removed
before serialization, a trailing heading's section contains the heading
markup and is never blank, hence never dropped. -/
theorem c5_sections_never_blank (s : String) (sec : ArticleSection)
    (hmem : sec ∈ splitIntoSections s) : jsTrim sec.html ≠ "" := by
  rw [splitIntoSections] at hmem
  by_cases hg : s = "" ∨ jsTrim s = ""
  · rw [if_pos hg] at hmem
    cases hmem
  · rw [if_neg hg] at hmem
    push_neg at hg
    have hp : parseHtml s = Except.ok (parseDocument s) := by
      rw [parseHtml, if_neg hg.1]
    rw [splitBody, hp] at hmem
    simp only [Except.map] at hmem
    rw [splitCore] at hmem
    dsimp only at hmem
    split at hmem
    · split at hmem
      · have h := List.mem_singleton.mp hmem
        subst h
        exact hg.2
      · exact flatSections_trim _ _ _ sec hmem
    · exact containerSections_trim _ _ sec hmem

/-- The section the C5 witness input produces. -/
def c5WSec : ArticleSection :=
  { id := "section-0", heading := "A", html := "<h2>A</h2>" }

/-- C5 witness: a lone trailing heading yields a section whose html (the
heading markup itself) is non-blank. -/
theorem c5_sections_never_blank_witness :
    jsTrim c5WSec.html ≠ "" := by
  exact c5_sections_never_blank "<h2>A</h2>" _ (by decide)

/-- Input of the spec's "infobox + two sections" scenario (C1). -/
def c1Input : String :=
  "<body><table class=\"infobox\"><tr><td><img src=\"//x/y.png\" width=\"100\" height=\"50\"></td></tr></table><p>Intro text</p><section><h2>History</h2><p>History text</p></section><section><h2>Legacy</h2><p>Legacy text</p></section></body>"

/-- C1 counterexample: on the scenario input the composed pipeline's
`introHtml` is the empty string — it does not contain "Intro text". The
`<p>Intro text</p>` sits directly in the body, outside any
section-container, and `extractIntro`'s section strategy keeps only
section-container children, so the paragraph is dropped. -/
theorem c1_scenario_intro_lost :
    (sectionArticle c1Input).introHtml = "" ∧
    jsIncludes (sectionArticle c1Input).introHtml "Intro text" = false := by
  decide

/-- C1 (amended): on the scenario input the composed pipeline yields an
infobox image with src `https://x/y.png`, width 100 and height 50, and
exactly two sections headed "History" then "Legacy" — but `introHtml` is the
empty string (the bare intro paragraph is dropped by the section-container
strategy), not a string containing "Intro text". -/
theorem c1_scenario_amended :
    (sectionArticle c1Input).infoboxImage.map InfoboxImage.src = some "https://x/y.png" ∧
    (sectionArticle c1Input).infoboxImage.map InfoboxImage.width = some (some 100) ∧
    (sectionArticle c1Input).infoboxImage.map InfoboxImage.height = some (some 50) ∧
    (sectionArticle c1Input).introHtml = "" ∧
    (sectionArticle c1Input).sectionsHtml.map ArticleSection.heading = ["History", "Legacy"] ∧
    (sectionArticle c1Input).sectionsHtml.map ArticleSection.id = ["section-0", "section-1"] := by
  decide

end WikiScape
